import Mathlib

/-!
Shallow embedding of the VennStack puzzle state engine
(`src/hooks/useVennEngine.ts`, current variant) and of the spatial insertion
resolver (`src/utils/insertionCalculator.ts`).

JavaScript collections are modelled by insertion-ordered lists:
a `Map` is an association list (`set` updates in place or appends, `delete`
filters), a `Set` is a duplicate-free list (`add` appends when absent).
The three-way insertion signal `null | string | undefined` is modelled by the
inductive `InsertAnchor`.  The React hook's `isCompleted` parameter (the
frozen-store flag) is passed explicitly to every operation.
-/

namespace VennStack

/-- The four zones of the board (`types/game.ts`). -/
inductive Zone where
  | left
  | right
  | both
  | outside
deriving DecidableEq, Repr, Fintype

/-- A puzzle item: stable id and canonical zone.  The display `text`,
`emoji` and `explanation` fields never influence the engine and are omitted. -/
structure Item where
  id : String
  zone : Zone
deriving DecidableEq, Repr

/-- The three-way insertion signal: the JS call sites pass `null`
(insert before all), a concrete id (insert immediately after it) or
`undefined` (append at end). -/
inductive InsertAnchor where
  | start
  | after (a : String)
  | atEnd
deriving DecidableEq, Repr

/-- JS `Map.get` on an insertion-ordered association list. -/
def mapGet (m : List (String × Zone)) (k : String) : Option Zone :=
  (m.find? (fun p => p.1 == k)).map (·.2)

/-- JS `Map.set`: overwrite in place when the key is present, else append. -/
def mapSet (m : List (String × Zone)) (k : String) (v : Zone) :
    List (String × Zone) :=
  if m.any (fun p => p.1 == k) then
    m.map (fun p => if p.1 == k then (k, v) else p)
  else
    m ++ [(k, v)]

/-- JS `Map.delete`. -/
def mapDelete (m : List (String × Zone)) (k : String) : List (String × Zone) :=
  m.filter (fun p => p.1 != k)

/-- JS `Set.add`: append when absent (sets are duplicate-free lists). -/
def setAdd (s : List String) (x : String) : List String :=
  if s.contains x then s else s ++ [x]

/-- The per-zone ordered id sequences (`zoneOrder` state, one list per zone). -/
structure ZoneOrders where
  left : List String
  right : List String
  both : List String
  outside : List String
deriving DecidableEq, Repr

/-- Read one zone's order. -/
def ZoneOrders.get (o : ZoneOrders) : Zone → List String
  | .left => o.left
  | .right => o.right
  | .both => o.both
  | .outside => o.outside

/-- Replace one zone's order. -/
def ZoneOrders.set (o : ZoneOrders) : Zone → List String → ZoneOrders
  | .left, l => { o with left := l }
  | .right, l => { o with right := l }
  | .both, l => { o with both := l }
  | .outside, l => { o with outside := l }

/-- Strip an id from every zone order
(the `order.filter(id => id !== itemId)` loop run over all four zones). -/
def ZoneOrders.removeAll (o : ZoneOrders) (x : String) : ZoneOrders :=
  ⟨o.left.filter (· != x), o.right.filter (· != x),
   o.both.filter (· != x), o.outside.filter (· != x)⟩

/-- The two rule-reveal flags (`revealedRules` state). -/
structure RevealedRules where
  left : Bool
  right : Bool
deriving DecidableEq, Repr

/-- The engine's mutable state: placement mapping, zone orders, locked set,
reveal flags and the stored orientation. -/
structure EngineState where
  itemPlacements : List (String × Zone)
  zoneOrder : ZoneOrders
  lockedItems : List String
  revealedRules : RevealedRules
  isMirrored : Bool
deriving DecidableEq, Repr

/-- The empty store a fresh (non-completed) puzzle session starts from. -/
def initialState : EngineState :=
  ⟨[], ⟨[], [], [], []⟩, [], ⟨false, false⟩, false⟩

/-- `getExpectedZone`: canonical zone adjusted for orientation —
`left`/`right` swap when mirrored, `both`/`outside` are invariant. -/
def getExpectedZone (item : Item) (isMirrored : Bool) : Zone :=
  match item.zone with
  | .left => if isMirrored then .right else .left
  | .right => if isMirrored then .left else .right
  | z => z

/-- One iteration of `calculateIsMirrored`'s `forEach`: skip unplaced items,
skip items whose canonical zone is not exclusive, increment the standard
counter on `placedZone === item.zone` and the mirrored counter on the swapped
comparison. -/
def mirrorStep (itemPlacements : List (String × Zone)) (c : Nat × Nat)
    (item : Item) : Nat × Nat :=
  match mapGet itemPlacements item.id with
  | none => c
  | some placedZone =>
    if item.zone = .left ∨ item.zone = .right then
      ((if placedZone = item.zone then c.1 + 1 else c.1),
       (if (item.zone = .left ∧ placedZone = .right) ∨
           (item.zone = .right ∧ placedZone = .left)
        then c.2 + 1 else c.2))
    else c

/-- `calculateIsMirrored`: walk the items accumulating the standard-match and
mirrored-match counters exactly as the source `forEach` does, then compare. -/
def calculateIsMirrored (items : List Item)
    (itemPlacements : List (String × Zone)) : Bool :=
  let counts := items.foldl (mirrorStep itemPlacements) (0, 0)
  counts.2 > counts.1

/-- `isOrientationCrystallized`: some locked item has an exclusive
canonical zone. -/
def isOrientationCrystallized (items : List Item)
    (lockedItems : List String) : Bool :=
  items.any (fun item =>
    lockedItems.contains item.id &&
      (item.zone == Zone.left || item.zone == Zone.right))

/-- JS `Array.prototype.indexOf` restricted to its found/not-found outcome:
`some i` is the first index holding `a`, `none` stands for `-1`. -/
def indexOfJS (a : String) : List String → Option Nat
  | [] => none
  | x :: xs => if x == a then some 0 else (indexOfJS a xs).map (· + 1)

/-- The three-way insertion of `placeItem`: `null` prepends, a concrete id is
located with `indexOf` and the item is spliced in right after it — when the
anchor is absent `indexOf` yields `-1`, so `splice(-1 + 1, 0, itemId)` inserts
at position 0 — and `undefined` appends. -/
def insertResolved (targetOrder : List String) (itemId : String) :
    InsertAnchor → List String
  | .start => itemId :: targetOrder
  | .after a =>
    match indexOfJS a targetOrder with
    | some i => targetOrder.insertIdx (i + 1) itemId
    | none => targetOrder.insertIdx 0 itemId
  | .atEnd => targetOrder ++ [itemId]

/-- `placeItem` (current variant, `useVennEngine.ts` lines 175–204): no-op when
the puzzle is completed; otherwise set the placement mapping entry, strip the
id from every zone order, and insert it into the target order at the anchor. -/
def placeItem (isCompleted : Bool) (s : EngineState) (itemId : String)
    (targetZone : Zone) (insertAfterId : InsertAnchor) : EngineState :=
  if isCompleted then s
  else
    let stripped := s.zoneOrder.removeAll itemId
    { s with itemPlacements := mapSet s.itemPlacements itemId targetZone,
             zoneOrder := stripped.set targetZone
               (insertResolved (stripped.get targetZone) itemId insertAfterId) }

/-- `removeItem` (current variant): no-op when completed; otherwise delete the
mapping entry and strip the id from every zone order. -/
def removeItem (isCompleted : Bool) (s : EngineState) (itemId : String) :
    EngineState :=
  if isCompleted then s
  else
    { s with itemPlacements := mapDelete s.itemPlacements itemId,
             zoneOrder := s.zoneOrder.removeAll itemId }

/-- A coherent example state: item `a` is placed and locked in the left zone,
the store is not frozen. -/
def exLockedState : EngineState :=
  ⟨[("a", Zone.left)], ⟨["a"], [], [], []⟩, ["a"], ⟨false, false⟩, false⟩

/-- A coherent example state: item `x` is placed (unlocked) in the left zone. -/
def exStaleAnchorState : EngineState :=
  ⟨[("x", Zone.left)], ⟨["x"], [], [], []⟩, [], ⟨false, false⟩, false⟩

/-- C1, counterexample.  Item `a` is in the locked set of a non-frozen store,
yet `placeItem` moves it to the right zone and `removeItem` deletes it: the
engine never consults the locked set, so the calls are not no-ops and the
placement mapping changes. -/
theorem locked_item_not_immutable_counterexample :
    (placeItem false exLockedState "a" Zone.right InsertAnchor.atEnd).itemPlacements
        ≠ exLockedState.itemPlacements ∧
      (removeItem false exLockedState "a").itemPlacements
        ≠ exLockedState.itemPlacements := by
  decide

/-- C1, amended.  The only guard in `placeItem`/`removeItem` is the frozen-store
check: on a frozen store both calls leave the whole state unchanged, for every
id (locked or not), zone and anchor.  No locked-set check is performed by the
engine itself. -/
theorem frozen_store_mutation_noop (s : EngineState) (id : String)
    (z : Zone) (a : InsertAnchor) :
    placeItem true s id z a = s ∧ removeItem true s id = s := by
  constructor <;> simp [placeItem, removeItem]

/-- The result record returned by `validatePuzzle`. -/
structure ValidateResult where
  correct : List String
  incorrect : List String
  isMirrored : Bool
deriving DecidableEq, Repr

/-- One iteration of `validatePuzzle`'s classification `forEach`: skip an
unplaced item, push a placed id into `correct` when its placed zone equals its
expected zone (for the given orientation), else into `incorrect`. -/
def classifyStep (placements : List (String × Zone)) (m : Bool)
    (acc : List String × List String) (item : Item) :
    List String × List String :=
  match mapGet placements item.id with
  | none => acc
  | some placedZone =>
    if placedZone = getExpectedZone item m then (acc.1 ++ [item.id], acc.2)
    else (acc.1, acc.2 ++ [item.id])

/-- The classification loop of `validatePuzzle`, folded over the items in
puzzle order starting from two empty lists. -/
def classifyItems (items : List Item) (placements : List (String × Zone))
    (m : Bool) : List String × List String :=
  items.foldl (classifyStep placements m) ([], [])

/-- Count the now-locked items whose canonical zone is `z`
(the `leftCount`/`rightCount` filters in the source). -/
def canonicalLockedCount (items : List Item) (locked : List String)
    (z : Zone) : Nat :=
  (items.filter (fun item => item.zone == z && locked.contains item.id)).length

/-- The reveal-flag update at the end of `validatePuzzle`: extend the locked
set with the ids just validated correct; if its size reaches the item count,
force both flags true; otherwise OR each flag with its ≥3 canonical-count
threshold. -/
def revealAfterValidate (items : List Item) (prev : RevealedRules)
    (lockedItems : List String) (correct : List String) : RevealedRules :=
  let updatedLocked := correct.foldl setAdd lockedItems
  if updatedLocked.length = items.length then ⟨true, true⟩
  else
    ⟨prev.left || decide (3 ≤ canonicalLockedCount items updatedLocked .left),
     prev.right || decide (3 ≤ canonicalLockedCount items updatedLocked .right)⟩

/-- `validatePuzzle` (lines 226–290): on a frozen store return the empty
result (with `isMirrored: false`) and change nothing.  Otherwise recompute the
orientation unless crystallized, classify every placed item against the
resolved orientation, lock the correct ones, update the reveal flags, and
store the resolved orientation. -/
def validatePuzzle (isCompleted : Bool) (items : List Item) (s : EngineState) :
    ValidateResult × EngineState :=
  if isCompleted then (⟨[], [], false⟩, s)
  else
    let crystallized := isOrientationCrystallized items s.lockedItems
    let currentIsMirrored :=
      if crystallized then s.isMirrored
      else calculateIsMirrored items s.itemPlacements
    let classified := classifyItems items s.itemPlacements currentIsMirrored
    (⟨classified.1, classified.2, currentIsMirrored⟩,
     { s with
        lockedItems := classified.1.foldl setAdd s.lockedItems,
        revealedRules :=
          revealAfterValidate items s.revealedRules s.lockedItems classified.1,
        isMirrored := currentIsMirrored })

/-- The eligibility filter of `revealOneHint`: items that are placed, whose
placement is not `outside`, and that are not locked (`placedNotLocked`). -/
def hintEligible (items : List Item) (s : EngineState) : List Item :=
  items.filter (fun item =>
    match mapGet s.itemPlacements item.id with
    | some z => z != Zone.outside && !(s.lockedItems.contains item.id)
    | none => false)

/-- The wrongly-placed test used by `revealOneHint`: the current placement
differs from the orientation-adjusted expected zone. -/
def hintWrong (s : EngineState) (item : Item) : Bool :=
  mapGet s.itemPlacements item.id != some (getExpectedZone item s.isMirrored)

/-- `revealOneHint` (lines 367–429): null on a frozen store; otherwise filter
the eligible pool, prefer the wrongly placed items, take the pool's first
element, move it to its expected zone (append position) via `placeItem`, lock
it, update the reveal flags with the ≥3 thresholds (no all-locked forcing
here), and return its id. -/
def revealOneHint (isCompleted : Bool) (items : List Item) (s : EngineState) :
    Option String × EngineState :=
  if isCompleted then (none, s)
  else
    let placedNotLocked := hintEligible items s
    if placedNotLocked.length = 0 then (none, s)
    else
      let incorrectPlaced := placedNotLocked.filter (hintWrong s)
      let pool :=
        if 0 < incorrectPlaced.length then incorrectPlaced else placedNotLocked
      match pool with
      | [] => (none, s)
      | target :: _ =>
        let itemId := target.id
        let expectedZone := getExpectedZone target s.isMirrored
        let s1 := placeItem false s itemId expectedZone .atEnd
        let updatedLocked := setAdd s.lockedItems itemId
        (some itemId,
         { s1 with
            lockedItems := setAdd s1.lockedItems itemId,
            revealedRules :=
              ⟨s.revealedRules.left ||
                 decide (3 ≤ canonicalLockedCount items updatedLocked .left),
               s.revealedRules.right ||
                 decide (3 ≤ canonicalLockedCount items updatedLocked .right)⟩ })

/-- C2.  Evaluating `placeItem` at the failing input: the left order is
`["x"]`, the anchor `"zz"` is absent from it, and the freshly placed `"y"`
ends up at the *front* (`["y", "x"]`) instead of being appended
(`["x", "y"]`) as the spec requires: `indexOf` returns `-1` and
`splice(-1 + 1, 0, itemId)` inserts at position 0. -/
theorem stale_anchor_prepends :
    (placeItem false exStaleAnchorState "y" Zone.left
        (InsertAnchor.after "zz")).zoneOrder.left = ["y", "x"] := by
  decide

/-- Membership is preserved by `setAdd`. -/
theorem mem_setAdd_of_mem {l : List String} {x y : String} (h : x ∈ l) :
    x ∈ setAdd l y := by
  unfold setAdd
  split
  · exact h
  · exact List.mem_append_left _ h

/-- Membership is preserved by folding `setAdd` over any list of additions. -/
theorem mem_foldl_setAdd {x : String} :
    ∀ (c : List String) (l : List String), x ∈ l → x ∈ c.foldl setAdd l := by
  intro c
  induction c with
  | nil => intro l h; exact h
  | cons y ys ih =>
    intro l h
    exact ih (setAdd l y) (mem_setAdd_of_mem h)

/-- C10.  Frame property of `validatePuzzle`: the placement mapping and all
four zone orders are returned untouched, and the locked set only grows (every
previously locked id stays locked).  Holds for frozen and non-frozen stores. -/
theorem validate_frame (b : Bool) (items : List Item) (s : EngineState) :
    (validatePuzzle b items s).2.itemPlacements = s.itemPlacements ∧
      (validatePuzzle b items s).2.zoneOrder = s.zoneOrder ∧
      ∀ x ∈ s.lockedItems, x ∈ (validatePuzzle b items s).2.lockedItems := by
  cases b with
  | false =>
    refine ⟨rfl, rfl, ?_⟩
    intro x hx
    simpa [validatePuzzle] using mem_foldl_setAdd _ _ hx
  | true => exact ⟨rfl, rfl, fun x hx => hx⟩

/-- C10, witness: instantiating the frame theorem at a concrete locked store. -/
theorem validate_frame_witness :
    "a" ∈ exLockedState.lockedItems ∧
      "a" ∈ (validatePuzzle false [] exLockedState).2.lockedItems :=
  ⟨by decide, (validate_frame false [] exLockedState).2.2 "a" (by decide)⟩

/-- Spec-side standard-match count: placed items with an exclusive canonical
zone whose placed zone equals the canonical zone. -/
def standardMatchCount (items : List Item)
    (pl : List (String × Zone)) : Nat :=
  items.countP (fun it =>
    (it.zone == Zone.left || it.zone == Zone.right) &&
      mapGet pl it.id == some it.zone)

/-- Spec-side mirrored-match count: placed items with an exclusive canonical
zone whose placed zone is the opposite exclusive zone. -/
def mirroredMatchCount (items : List Item)
    (pl : List (String × Zone)) : Nat :=
  items.countP (fun it =>
    (it.zone == Zone.left && mapGet pl it.id == some Zone.right) ||
      (it.zone == Zone.right && mapGet pl it.id == some Zone.left))

/-- The counter pair accumulated by `calculateIsMirrored`'s loop equals the
starting pair plus the two spec-side match counts. -/
theorem foldl_mirrorStep_eq (pl : List (String × Zone)) :
    ∀ (items : List Item) (c : Nat × Nat),
      items.foldl (mirrorStep pl) c
        = (c.1 + standardMatchCount items pl,
           c.2 + mirroredMatchCount items pl) := by
  intro items
  induction items with
  | nil => intro c; simp [standardMatchCount, mirroredMatchCount]
  | cons it rest ih =>
    intro c
    rw [List.foldl_cons, ih]
    obtain ⟨iid, iz⟩ := it
    rcases h : mapGet pl iid with _ | pz
    · simp [standardMatchCount, mirroredMatchCount, List.countP_cons,
        mirrorStep, h]
    · cases iz <;> cases pz <;>
        simp [standardMatchCount, mirroredMatchCount, List.countP_cons,
          mirrorStep, h] <;>
        omega

/-- C5.  The orientation detector considers exactly the placed items with an
exclusive canonical zone, counts standard and mirrored matches, and reports
mirrored iff the mirrored count strictly exceeds the standard count. -/
theorem calculateIsMirrored_eq_counts (items : List Item)
    (pl : List (String × Zone)) :
    calculateIsMirrored items pl
      = decide (standardMatchCount items pl < mirroredMatchCount items pl) := by
  simp only [calculateIsMirrored]
  rw [foldl_mirrorStep_eq pl items (0, 0)]
  simp [Nat.lt_iff_add_one_le]

/-- An item card's bounding box in the target container, as extracted from the
layout (`left/top/right/bottom` of `getBoundingClientRect`). -/
structure CardRect where
  cardId : String
  left : ℚ
  top : ℚ
  right : ℚ
  bottom : ℚ
deriving DecidableEq, Repr

/-- Horizontal center, `rect.left + rect.width / 2`. -/
def CardRect.centerX (c : CardRect) : ℚ := c.left + (c.right - c.left) / 2

/-- Vertical center, `rect.top + rect.height / 2`. -/
def CardRect.centerY (c : CardRect) : ℚ := c.top + (c.bottom - c.top) / 2

/-- Push a card onto the first row whose first member's vertical center is
within the 20-unit `ROW_TOLERANCE` (the `rows.find` followed by the in-place
`push`), else open a new row at the end. -/
def addToRows (card : CardRect) : List (List CardRect) → List (List CardRect)
  | [] => [[card]]
  | row :: rest =>
    match row.head? with
    | some c0 =>
      if |c0.centerY - card.centerY| < 20 then (row ++ [card]) :: rest
      else row :: addToRows card rest
    | none => row :: addToRows card rest

/-- Row clustering by vertical centers: each card joins the first matching
row, encounter order preserved. -/
def clusterRows (cards : List CardRect) : List (List CardRect) :=
  cards.foldl (fun rows card => addToRows card rows) []

/-- Stable insertion into an ascending list: the new element never passes an
element it ties with. -/
def insertSorted (lt : α → α → Bool) (x : α) : List α → List α
  | [] => [x]
  | y :: ys => if lt x y then x :: y :: ys else y :: insertSorted lt x ys

/-- Stable ascending sort, modelling JS `Array.prototype.sort` (stable, with a
numeric comparator): elements are inserted left to right. -/
def stableSort (lt : α → α → Bool) (l : List α) : List α :=
  l.foldl (fun acc x => insertSorted lt x acc) []

/-- A row's first member's vertical center (`row[0].centerY`). -/
def rowCenterY (row : List CardRect) : ℚ :=
  ((row.head?).map CardRect.centerY).getD 0

/-- A row's first member's top edge (`row[0].top`). -/
def rowFirstTop (row : List CardRect) : ℚ :=
  ((row.head?).map (fun c => c.top)).getD 0

/-- A row's first member's bottom edge (`row[0].bottom`). -/
def rowFirstBottom (row : List CardRect) : ℚ :=
  ((row.head?).map (fun c => c.bottom)).getD 0

/-- `Math.min(...row.map(c => c.top))`. -/
def rowMinTop (row : List CardRect) : ℚ :=
  match row.map (fun c => c.top) with
  | [] => 0
  | t :: ts => ts.foldl min t

/-- `Math.max(...row.map(c => c.bottom))`. -/
def rowMaxBottom (row : List CardRect) : ℚ :=
  match row.map (fun c => c.bottom) with
  | [] => 0
  | b :: bs => bs.foldl max b

/-- The left-to-right walk of step 3: before the current card's left edge
means insert before it (after its predecessor, or at the row start); inside
its horizontal span splits at the midpoint; otherwise continue with this card
as predecessor.  `none` when the loop exhausts the row. -/
def walkRow (dx : ℚ) (prev : Option String) :
    List CardRect → Option InsertAnchor
  | [] => none
  | card :: rest =>
    if dx < card.left then
      some (match prev with | none => .start | some p => .after p)
    else if card.left ≤ dx ∧ dx ≤ card.right then
      let cardMidpoint := card.left + (card.right - card.left) / 2
      if dx < cardMidpoint then
        some (match prev with | none => .start | some p => .after p)
      else some (.after card.cardId)
    else walkRow dx (some card.cardId) rest

/-- Step 3 of the resolver on the chosen row: the 30-unit `TOLERANCE` band
classifies drops clearly past the rightmost card (insert after the last card)
or clearly before the leftmost card (row start); otherwise the row is walked,
falling back to insert-after-last when the walk exhausts. -/
def resolveInRow (targetRow : List CardRect) (dx : ℚ) : InsertAnchor :=
  match targetRow.getLast?, targetRow.head? with
  | some rightmostCard, some leftmostCard =>
    if rightmostCard.right + 30 < dx then .after rightmostCard.cardId
    else if dx < leftmostCard.left - 30 then .start
    else
      match walkRow dx none targetRow with
      | some a => a
      | none => .after rightmostCard.cardId
  | _, _ => .atEnd

/-- `calculateInsertPosition` (`insertionCalculator.ts`): the geometric core,
with the layout injected as the list of card boxes found in the target zone
(`none` models a zone element missing from the layout, which appends).  The
dragged card is excluded; an empty zone returns start; rows are clustered,
sorted left-to-right and top-to-bottom; the target row is chosen by vertical
containment, with below-all (append), above-all (start) and closest-row
fallbacks; the chosen row is then resolved horizontally. -/
def calculateInsertPosition (zoneCards : Option (List CardRect))
    (dropPoint : ℚ × ℚ) (draggedCardId : String) : InsertAnchor :=
  match zoneCards with
  | none => .atEnd
  | some allCards =>
    let cardData := allCards.filter (fun c => c.cardId != draggedCardId)
    if cardData.isEmpty then .start
    else
      let clustered := clusterRows cardData
      let rowsSorted :=
        clustered.map (stableSort (fun a b => a.centerX < b.centerX))
      let rows := stableSort (fun a b => rowCenterY a < rowCenterY b) rowsSorted
      match rows.find? (fun row =>
          rowMinTop row ≤ dropPoint.2 && dropPoint.2 ≤ rowMaxBottom row) with
      | some targetRow => resolveInRow targetRow dropPoint.1
      | none =>
        if ((rows.getLast?.map rowFirstBottom).getD 0) < dropPoint.2 then .atEnd
        else if dropPoint.2 < ((rows.head?.map rowFirstTop).getD 0) then .start
        else
          match (stableSort
              (fun a b =>
                |rowCenterY a - dropPoint.2| < |rowCenterY b - dropPoint.2|)
              rows).head? with
          | some targetRow => resolveInRow targetRow dropPoint.1
          | none => .atEnd

/-- The single-row layout of the claim: three cards of width 10 and height 20
whose horizontal centers sit at 10, 50 and 90, all on one row. -/
def exRowCards : List CardRect :=
  [⟨"c1", 5, 0, 15, 20⟩, ⟨"c2", 45, 0, 55, 20⟩, ⟨"c3", 85, 0, 95, 20⟩]

/-- The dragged card is not among the three, so the filter keeps them all. -/
theorem exRow_filter :
    exRowCards.filter (fun c => c.cardId != "drag") = exRowCards := by
  simp [exRowCards]

/-- All three cards share the vertical center 10, so clustering yields one
row in encounter order. -/
theorem exRow_cluster : clusterRows exRowCards = [exRowCards] := by
  norm_num [clusterRows, addToRows, CardRect.centerY, exRowCards,
    List.foldl_cons, List.foldl_nil]

/-- The row is already ascending by horizontal center. -/
theorem exRow_sortX :
    stableSort (fun a b => a.centerX < b.centerX) exRowCards = exRowCards := by
  norm_num [stableSort, insertSorted, CardRect.centerX, exRowCards,
    List.foldl_cons, List.foldl_nil]

/-- Sorting a one-element row list is the identity. -/
theorem stableSort_singleton (lt : List CardRect → List CardRect → Bool)
    (r : List CardRect) : stableSort lt [r] = [r] := rfl

/-- The single row's vertical span `[0, 20]` contains the drop height 10. -/
theorem exRow_find :
    List.find? (fun row => rowMinTop row ≤ 10 && 10 ≤ rowMaxBottom row)
      [exRowCards] = some exRowCards := by
  norm_num [List.find?, rowMinTop, rowMaxBottom, exRowCards]

/-- Any drop at height 10 over the three-card layout is resolved inside the
single row, whatever its horizontal coordinate. -/
theorem exRow_select (x : ℚ) :
    calculateInsertPosition (some exRowCards) (x, 10) "drag"
      = resolveInRow exRowCards x := by
  simp only [calculateInsertPosition, exRow_filter, exRow_cluster,
    List.map_cons, List.map_nil, exRow_sortX, stableSort_singleton, exRow_find]
  norm_num [exRowCards]

/-- C8, counterexample.  A drop at x = 95 inside the row's vertical span does
not return the append signal (`undefined`): the resolver lands on the right
half of the card centered at 90 and returns that card's id.  Inside a row the
function can only return an id or the start signal, never the end signal. -/
theorem single_row_x95_not_append :
    calculateInsertPosition (some exRowCards) (95, 10) "drag"
        = InsertAnchor.after "c3" ∧
      InsertAnchor.after "c3" ≠ InsertAnchor.atEnd := by
  refine ⟨?_, by decide⟩
  rw [exRow_select]
  norm_num [resolveInRow, walkRow, exRowCards, List.getLast?]

/-- C8, amended.  On the single-row layout: x = 45 inserts after the card at
center 10, x = 5 inserts at the start (`null`), and x = 95 inserts after the
card at center 90 — an effective append expressed as an anchor id, not as the
`undefined` end signal. -/
theorem single_row_resolution :
    calculateInsertPosition (some exRowCards) (45, 10) "drag"
        = InsertAnchor.after "c1" ∧
      calculateInsertPosition (some exRowCards) (5, 10) "drag"
        = InsertAnchor.start ∧
      calculateInsertPosition (some exRowCards) (95, 10) "drag"
        = InsertAnchor.after "c3" := by
  refine ⟨?_, ?_, ?_⟩ <;> rw [exRow_select] <;>
    norm_num [resolveInRow, walkRow, exRowCards, List.getLast?]

theorem mapGet_nil (k : String) : mapGet [] k = none := rfl

theorem mapGet_cons (p : String × Zone) (m : List (String × Zone))
    (k : String) :
    mapGet (p :: m) k = if p.1 == k then some p.2 else mapGet m k := by
  by_cases h : p.1 == k <;> simp [mapGet, List.find?, h]

theorem mapGet_eq_none_iff {m : List (String × Zone)} {k : String} :
    mapGet m k = none ↔ ∀ p ∈ m, p.1 ≠ k := by
  induction m with
  | nil => simp [mapGet]
  | cons p rest ih =>
    rw [mapGet_cons]
    by_cases h : p.1 == k <;> simp_all

theorem mapGet_append_right {m l : List (String × Zone)} {k : String}
    (h : mapGet m k = none) : mapGet (m ++ l) k = mapGet l k := by
  induction m with
  | nil => simp
  | cons p rest ih =>
    rw [mapGet_cons] at h
    rw [List.cons_append, mapGet_cons]
    by_cases hp : p.1 == k
    · simp [hp] at h
    · simp only [hp, if_false] at h ⊢
      exact ih h

theorem mapGet_append_left {m l : List (String × Zone)} {k : String}
    {w : Zone} (h : mapGet m k = some w) : mapGet (m ++ l) k = some w := by
  induction m with
  | nil => simp [mapGet] at h
  | cons p rest ih =>
    rw [mapGet_cons] at h
    rw [List.cons_append, mapGet_cons]
    cases hp : p.1 == k with
    | true => simpa [hp] using h
    | false =>
      rw [hp] at h
      simp only [if_false, Bool.false_eq_true] at h ⊢
      exact ih h

theorem mapGet_map_update_self (k : String) (v : Zone) :
    ∀ m : List (String × Zone), m.any (fun p => p.1 == k) = true →
      mapGet (m.map (fun p => if p.1 == k then (k, v) else p)) k = some v := by
  intro m
  induction m with
  | nil => intro h; simp at h
  | cons p rest ih =>
    intro h
    cases hp : p.1 == k with
    | true =>
      simp only [List.map_cons, hp, if_true]
      rw [mapGet_cons]
      simp
    | false =>
      simp only [List.any_cons, hp, Bool.false_or] at h
      simp only [List.map_cons, hp, Bool.false_eq_true, if_false]
      rw [mapGet_cons]
      simp only [hp, Bool.false_eq_true, if_false]
      exact ih h

theorem mapGet_map_update_ne {k k' : String} (v : Zone) (hne : k' ≠ k) :
    ∀ m : List (String × Zone),
      mapGet (m.map (fun p => if p.1 == k then (k, v) else p)) k'
        = mapGet m k' := by
  have h1 : (k == k') = false := by
    simp only [beq_eq_false_iff_ne, ne_eq]
    exact fun h => hne h.symm
  intro m
  induction m with
  | nil => rfl
  | cons p rest ih =>
    cases hp : p.1 == k with
    | true =>
      have hpk : p.1 = k := by simpa using hp
      simp only [List.map_cons, hp, if_true]
      rw [mapGet_cons, mapGet_cons]
      have h2 : (p.1 == k') = false := by rw [hpk]; exact h1
      simp only [h1, h2, Bool.false_eq_true, if_false]
      exact ih
    | false =>
      simp only [List.map_cons, hp, Bool.false_eq_true, if_false]
      rw [mapGet_cons, mapGet_cons]
      cases hp' : p.1 == k' with
      | true => simp
      | false =>
        simp only [Bool.false_eq_true, if_false]
        exact ih

/-- `Map.set` then `Map.get` on the same key yields the written value. -/
theorem mapGet_mapSet_self (m : List (String × Zone)) (k : String) (v : Zone) :
    mapGet (mapSet m k v) k = some v := by
  unfold mapSet
  split
  · exact mapGet_map_update_self k v m (by assumption)
  · next h =>
    have hnone : mapGet m k = none := by
      rw [mapGet_eq_none_iff]
      intro p hp hpk
      exact h (List.any_eq_true.mpr ⟨p, hp, by simp [hpk]⟩)
    rw [mapGet_append_right hnone, mapGet_cons]
    simp

/-- `Map.set` leaves every other key's binding unchanged. -/
theorem mapGet_mapSet_ne (m : List (String × Zone)) {k k' : String}
    (v : Zone) (hne : k' ≠ k) : mapGet (mapSet m k v) k' = mapGet m k' := by
  unfold mapSet
  split
  · exact mapGet_map_update_ne v hne m
  · cases hm : mapGet m k' with
    | some w => exact mapGet_append_left hm
    | none =>
      rw [mapGet_append_right hm, mapGet_cons]
      have h1 : (k == k') = false := by
        simp only [beq_eq_false_iff_ne, ne_eq]
        exact fun h => hne h.symm
      simp [h1, mapGet]

/-- `Map.delete` then `Map.get` on the deleted key yields nothing. -/
theorem mapGet_mapDelete_self (m : List (String × Zone)) (k : String) :
    mapGet (mapDelete m k) k = none := by
  rw [mapGet_eq_none_iff]
  intro p hp
  have := List.of_mem_filter hp
  simpa using this

/-- `Map.delete` leaves every other key's binding unchanged. -/
theorem mapGet_mapDelete_ne (m : List (String × Zone)) {k k' : String}
    (hne : k' ≠ k) : mapGet (mapDelete m k) k' = mapGet m k' := by
  induction m with
  | nil => rfl
  | cons p rest ih =>
    cases hp : p.1 == k with
    | true =>
      have hpk : p.1 = k := by simpa using hp
      have h2 : (p.1 == k') = false := by
        rw [hpk]
        simp only [beq_eq_false_iff_ne, ne_eq]
        exact fun h => hne h.symm
      simp only [mapDelete, List.filter_cons, bne, hp, Bool.not_true,
        Bool.false_eq_true, if_false] at ih ⊢
      rw [mapGet_cons, h2]
      simp only [Bool.false_eq_true, if_false]
      exact ih
    | false =>
      simp only [mapDelete, List.filter_cons, bne, hp, Bool.not_false,
        if_true] at ih ⊢
      rw [mapGet_cons, mapGet_cons]
      cases hp' : p.1 == k' with
      | true => simp
      | false =>
        simp only [Bool.false_eq_true, if_false]
        exact ih

theorem mem_filter_bne {l : List String} {a b : String} :
    a ∈ l.filter (· != b) ↔ a ∈ l ∧ a ≠ b := by
  simp [List.mem_filter]

theorem get_removeAll (o : ZoneOrders) (x : String) (z : Zone) :
    (o.removeAll x).get z = (o.get z).filter (· != x) := by
  cases z <;> rfl

theorem get_set_same (o : ZoneOrders) (z : Zone) (l : List String) :
    (o.set z l).get z = l := by
  cases z <;> rfl

theorem get_set_ne (o : ZoneOrders) {z z' : Zone} (h : z' ≠ z)
    (l : List String) : (o.set z l).get z' = o.get z' := by
  cases z <;> cases z' <;> first | rfl | exact absurd rfl h

theorem indexOfJS_lt_length {a : String} :
    ∀ {l : List String} {i : Nat}, indexOfJS a l = some i → i < l.length := by
  intro l
  induction l with
  | nil => intro i h; simp [indexOfJS] at h
  | cons x xs ih =>
    intro i h
    rw [indexOfJS] at h
    split at h
    · cases h
      simp
    · cases hi : indexOfJS a xs with
      | none => rw [hi] at h; cases h
      | some j =>
        rw [hi] at h
        cases h
        simpa using Nat.succ_lt_succ (ih hi)

/-- Whatever the anchor, inserting resolves to a list whose members are the
inserted id together with the original members. -/
theorem mem_insertResolved (l : List String) (itemId : String)
    (a : InsertAnchor) (id : String) :
    id ∈ insertResolved l itemId a ↔ id = itemId ∨ id ∈ l := by
  cases a with
  | start => simp [insertResolved]
  | atEnd => simp [insertResolved, or_comm]
  | after x =>
    rw [insertResolved]
    cases hi : indexOfJS x l with
    | some i =>
      have hlen : i + 1 ≤ l.length := indexOfJS_lt_length hi
      exact List.mem_insertIdx hlen
    | none => exact List.mem_insertIdx (Nat.zero_le _)

/-- Store coherence: an id lies in a zone's order exactly when the placement
mapping assigns it that zone.  This packages mutual exclusion (at most one
order may contain an id) together with agreement with the mapping. -/
def StoreCoherent (s : EngineState) : Prop :=
  ∀ id z, id ∈ s.zoneOrder.get z ↔ mapGet s.itemPlacements id = some z

theorem placeItem_coherent (b : Bool) (s : EngineState) (itemId : String)
    (tz : Zone) (a : InsertAnchor) (h : StoreCoherent s) :
    StoreCoherent (placeItem b s itemId tz a) := by
  cases b with
  | true => simpa [placeItem] using h
  | false =>
    intro id z
    simp only [placeItem, if_false, Bool.false_eq_true]
    by_cases hz : z = tz
    · subst hz
      rw [get_set_same, mem_insertResolved, get_removeAll, mem_filter_bne]
      by_cases hid : id = itemId
      · subst hid
        simp [mapGet_mapSet_self]
      · rw [mapGet_mapSet_ne _ _ hid]
        simp only [hid, false_or, and_iff_left hid]
        exact h id z
    · rw [get_set_ne _ hz, get_removeAll, mem_filter_bne]
      by_cases hid : id = itemId
      · subst hid
        rw [mapGet_mapSet_self]
        simp only [ne_eq, not_true_eq_false, and_false, false_iff,
          Option.some.injEq]
        exact fun hh => hz hh.symm
      · rw [mapGet_mapSet_ne _ _ hid]
        simp only [and_iff_left hid]
        exact h id z

theorem removeItem_coherent (b : Bool) (s : EngineState) (itemId : String)
    (h : StoreCoherent s) : StoreCoherent (removeItem b s itemId) := by
  cases b with
  | true => simpa [removeItem] using h
  | false =>
    intro id z
    simp only [removeItem, if_false, Bool.false_eq_true]
    rw [get_removeAll, mem_filter_bne]
    by_cases hid : id = itemId
    · subst hid
      rw [mapGet_mapDelete_self]
      simp
    · rw [mapGet_mapDelete_ne _ hid]
      simp only [and_iff_left hid]
      exact h id z

/-- A `placeItem` or `removeItem` call, together with the frozen flag it is
made under. -/
inductive Op where
  | place (itemId : String) (targetZone : Zone) (insertAfterId : InsertAnchor)
  | remove (itemId : String)
deriving DecidableEq, Repr

/-- Apply one store operation. -/
def applyOp (isCompleted : Bool) (s : EngineState) : Op → EngineState
  | .place id z a => placeItem isCompleted s id z a
  | .remove id => removeItem isCompleted s id

/-- Run a finite sequence of `placeItem`/`removeItem` calls from the empty
store. -/
def runOps (isCompleted : Bool) (ops : List Op) : EngineState :=
  ops.foldl (applyOp isCompleted) initialState

theorem coherent_initial : StoreCoherent initialState := by
  intro id z
  cases z <;> simp [initialState, ZoneOrders.get, mapGet]

theorem coherent_foldl (b : Bool) :
    ∀ (ops : List Op) (s : EngineState), StoreCoherent s →
      StoreCoherent (ops.foldl (applyOp b) s) := by
  intro ops
  induction ops with
  | nil => intro s h; exact h
  | cons op rest ih =>
    intro s h
    cases op with
    | place id z a => exact ih _ (placeItem_coherent b s id z a h)
    | remove id => exact ih _ (removeItem_coherent b s id h)

/-- C3.  Mutual exclusion invariant: after any finite sequence of
`placeItem`/`removeItem` calls from the empty store, every id lies in at most
one zone order, an id lies in some zone order exactly when it is a key of the
placement mapping, and the order containing it is the zone the mapping
assigns. -/
theorem mutual_exclusion_invariant (b : Bool) (ops : List Op) :
    (∀ id z₁ z₂, id ∈ (runOps b ops).zoneOrder.get z₁ →
        id ∈ (runOps b ops).zoneOrder.get z₂ → z₁ = z₂) ∧
      (∀ id, (∃ z, id ∈ (runOps b ops).zoneOrder.get z) ↔
        (mapGet (runOps b ops).itemPlacements id).isSome = true) ∧
      ∀ id z, id ∈ (runOps b ops).zoneOrder.get z →
        mapGet (runOps b ops).itemPlacements id = some z := by
  have hc : StoreCoherent (runOps b ops) :=
    coherent_foldl b ops initialState coherent_initial
  refine ⟨?_, ?_, ?_⟩
  · intro id z₁ z₂ h1 h2
    have e1 := (hc id z₁).mp h1
    have e2 := (hc id z₂).mp h2
    rw [e1] at e2
    exact (Option.some.injEq _ _).mp e2
  · intro id
    constructor
    · rintro ⟨z, hz⟩
      rw [(hc id z).mp hz]
      rfl
    · intro hsome
      cases hm : mapGet (runOps b ops).itemPlacements id with
      | none => rw [hm] at hsome; cases hsome
      | some z => exact ⟨z, (hc id z).mpr hm⟩
  · intro id z hz
    exact (hc id z).mp hz

/-- C3, witness: after placing `a` into the left zone from the empty store,
`a` is in the left order and the invariant yields its mapping entry. -/
theorem mutual_exclusion_invariant_witness :
    "a" ∈ (runOps false [Op.place "a" Zone.left InsertAnchor.atEnd]).zoneOrder.get Zone.left ∧
      mapGet (runOps false [Op.place "a" Zone.left InsertAnchor.atEnd]).itemPlacements "a"
        = some Zone.left :=
  ⟨by decide,
   (mutual_exclusion_invariant false [Op.place "a" Zone.left InsertAnchor.atEnd]).2.2
     "a" Zone.left (by decide)⟩

/-- C4, counterexample.  `x` is already placed in the left zone of a
non-frozen store and is not locked; `placeItem(x, right)` followed by
`removeItem(x)` does not restore the prior state: the original mapping entry
and the left-order position are lost. -/
theorem roundtrip_fails_for_placed_item :
    removeItem false
        (placeItem false exStaleAnchorState "x" Zone.right InsertAnchor.atEnd)
        "x"
      ≠ exStaleAnchorState := by
  decide

theorem mapDelete_append (m l : List (String × Zone)) (k : String) :
    mapDelete (m ++ l) k = mapDelete m k ++ mapDelete l k :=
  List.filter_append _ _

theorem mapDelete_eq_self {m : List (String × Zone)} {k : String}
    (h : mapGet m k = none) : mapDelete m k = m := by
  rw [mapGet_eq_none_iff] at h
  unfold mapDelete
  apply List.filter_eq_self.mpr
  intro p hp
  simpa using h p hp

theorem mapSet_of_get_none {m : List (String × Zone)} {k : String} (v : Zone)
    (h : mapGet m k = none) : mapSet m k v = m ++ [(k, v)] := by
  unfold mapSet
  rw [if_neg]
  intro hany
  rw [mapGet_eq_none_iff] at h
  rcases List.any_eq_true.mp hany with ⟨p, hp, hpk⟩
  exact h p hp (by simpa using hpk)

theorem ZoneOrders.ext_get {o₁ o₂ : ZoneOrders}
    (h : ∀ z, o₁.get z = o₂.get z) : o₁ = o₂ := by
  cases o₁
  cases o₂
  simp only [ZoneOrders.mk.injEq]
  exact ⟨h .left, h .right, h .both, h .outside⟩

theorem filter_insertIdx_bne (x : String) :
    ∀ (n : Nat) (l : List String),
      (l.insertIdx n x).filter (· != x) = l.filter (· != x) := by
  intro n
  induction n with
  | zero =>
    intro l
    rw [List.insertIdx_zero, List.filter_cons]
    simp
  | succ n ih =>
    intro l
    cases l with
    | nil => rw [List.insertIdx_succ_nil]
    | cons y ys =>
      rw [List.insertIdx_succ_cons, List.filter_cons, List.filter_cons, ih ys]

/-- Inserting an id (at any anchor) and filtering it back out is invisible. -/
theorem filter_insertResolved (l : List String) (x : String)
    (a : InsertAnchor) :
    (insertResolved l x a).filter (· != x) = l.filter (· != x) := by
  cases a with
  | start =>
    rw [insertResolved, List.filter_cons]
    simp
  | atEnd => simp [insertResolved, List.filter_append]
  | after y =>
    rw [insertResolved]
    cases hi : indexOfJS y l with
    | some i => exact filter_insertIdx_bne x (i + 1) l
    | none => exact filter_insertIdx_bne x 0 l

theorem removeAll_eq_self {o : ZoneOrders} {x : String}
    (h : ∀ z, x ∉ o.get z) : o.removeAll x = o := by
  apply ZoneOrders.ext_get
  intro z
  rw [get_removeAll]
  apply List.filter_eq_self.mpr
  intro y hy
  simp only [bne_iff_ne, ne_eq]
  intro hyx
  exact (h z) (hyx ▸ hy)

/-- C4, amended.  Round-trip holds for ids that are not already placed: if the
store is not frozen and `id` is neither a key of the placement mapping nor a
member of any zone order, then `placeItem(id, zone, anchor)` followed by
`removeItem(id)` restores the entire store (mapping, all four zone orders,
locked set, reveal flags and orientation). -/
theorem place_remove_roundtrip (s : EngineState) (id : String) (z : Zone)
    (a : InsertAnchor) (hp : mapGet s.itemPlacements id = none)
    (ho : ∀ z', id ∉ s.zoneOrder.get z') :
    removeItem false (placeItem false s id z a) id = s := by
  have hra : s.zoneOrder.removeAll id = s.zoneOrder := removeAll_eq_self ho
  have h1 : mapDelete (mapSet s.itemPlacements id z) id = s.itemPlacements := by
    rw [mapSet_of_get_none z hp, mapDelete_append, mapDelete_eq_self hp]
    simp [mapDelete]
  have h2 : ((s.zoneOrder.set z
      (insertResolved (s.zoneOrder.get z) id a)).removeAll id)
        = s.zoneOrder := by
    apply ZoneOrders.ext_get
    intro z'
    rw [get_removeAll]
    by_cases hz : z' = z
    · subst hz
      rw [get_set_same, filter_insertResolved]
      apply List.filter_eq_self.mpr
      intro y hy
      simp only [bne_iff_ne, ne_eq]
      intro hyx
      exact (ho z') (hyx ▸ hy)
    · rw [get_set_ne _ hz]
      apply List.filter_eq_self.mpr
      intro y hy
      simp only [bne_iff_ne, ne_eq]
      intro hyx
      exact (ho z') (hyx ▸ hy)
  simp only [placeItem, removeItem, Bool.false_eq_true, if_false, hra, h1, h2]

/-- C4, witness: instantiating the round-trip at a store that already holds
another item, with a fresh id `b`. -/
theorem place_remove_roundtrip_witness :
    mapGet exLockedState.itemPlacements "b" = none ∧
      removeItem false
          (placeItem false exLockedState "b" Zone.both InsertAnchor.start) "b"
        = exLockedState :=
  ⟨by decide,
   place_remove_roundtrip exLockedState "b" Zone.both InsertAnchor.start
     (by decide) (by decide)⟩

/-- The classification loop started from any accumulator prepends the
accumulator to the run from the empty accumulator. -/
theorem classify_foldl_append (pl : List (String × Zone)) (m : Bool) :
    ∀ (items : List Item) (acc : List String × List String),
      items.foldl (classifyStep pl m) acc
        = (acc.1 ++ (classifyItems items pl m).1,
           acc.2 ++ (classifyItems items pl m).2) := by
  intro items
  induction items with
  | nil => intro acc; simp [classifyItems]
  | cons it rest ih =>
    intro acc
    have hL : List.foldl (classifyStep pl m) acc (it :: rest)
        = List.foldl (classifyStep pl m) (classifyStep pl m acc it) rest :=
      List.foldl_cons _ _
    have hR : classifyItems (it :: rest) pl m
        = List.foldl (classifyStep pl m) (classifyStep pl m ([], []) it) rest :=
      rfl
    rw [hL, hR, ih (classifyStep pl m acc it),
      ih (classifyStep pl m ([], []) it)]
    cases hres : mapGet pl it.id with
    | none => simp [classifyStep, hres]
    | some pz =>
      by_cases hpe : pz = getExpectedZone it m <;>
        simp [classifyStep, hres, hpe]

/-- Membership in the `correct` output of the classification loop. -/
theorem mem_classify_correct (pl : List (String × Zone)) (m : Bool)
    (x : String) :
    ∀ items : List Item,
      (x ∈ (classifyItems items pl m).1 ↔
        ∃ it ∈ items, it.id = x ∧
          mapGet pl it.id = some (getExpectedZone it m)) := by
  intro items
  induction items with
  | nil => simp [classifyItems]
  | cons it rest ih =>
    have hsplit : (classifyItems (it :: rest) pl m).1
        = (classifyStep pl m ([], []) it).1 ++ (classifyItems rest pl m).1 := by
      have hR : classifyItems (it :: rest) pl m
          = List.foldl (classifyStep pl m) (classifyStep pl m ([], []) it)
              rest := rfl
      rw [hR, classify_foldl_append pl m rest]
    have hstep : x ∈ (classifyStep pl m ([], []) it).1 ↔
        (it.id = x ∧ mapGet pl it.id = some (getExpectedZone it m)) := by
      cases hres : mapGet pl it.id with
      | none => simp [classifyStep, hres]
      | some pz =>
        by_cases hpe : pz = getExpectedZone it m <;>
          simp [classifyStep, hres, hpe, eq_comm]
    rw [hsplit, List.mem_append, ih, hstep, List.exists_mem_cons_iff]

/-- Membership in the `incorrect` output of the classification loop. -/
theorem mem_classify_incorrect (pl : List (String × Zone)) (m : Bool)
    (x : String) :
    ∀ items : List Item,
      (x ∈ (classifyItems items pl m).2 ↔
        ∃ it ∈ items, it.id = x ∧ ∃ pz, mapGet pl it.id = some pz ∧
          pz ≠ getExpectedZone it m) := by
  intro items
  induction items with
  | nil => simp [classifyItems]
  | cons it rest ih =>
    have hsplit : (classifyItems (it :: rest) pl m).2
        = (classifyStep pl m ([], []) it).2 ++ (classifyItems rest pl m).2 := by
      have hR : classifyItems (it :: rest) pl m
          = List.foldl (classifyStep pl m) (classifyStep pl m ([], []) it)
              rest := rfl
      rw [hR, classify_foldl_append pl m rest]
    have hstep : x ∈ (classifyStep pl m ([], []) it).2 ↔
        (it.id = x ∧ ∃ pz, mapGet pl it.id = some pz ∧
          pz ≠ getExpectedZone it m) := by
      cases hres : mapGet pl it.id with
      | none => simp [classifyStep, hres]
      | some pz =>
        by_cases hpe : pz = getExpectedZone it m <;>
          simp [classifyStep, hres, hpe, eq_comm]
    rw [hsplit, List.mem_append, ih, hstep, List.exists_mem_cons_iff]

/-- In a puzzle with pairwise distinct ids, two items sharing an id are the
same item. -/
theorem item_eq_of_id_eq {items : List Item}
    (hN : (items.map Item.id).Nodup) {it it' : Item} (h1 : it ∈ items)
    (h2 : it' ∈ items) (heq : it.id = it'.id) : it = it' :=
  List.inj_on_of_nodup_map hN h1 h2 heq

/-- C6.  Orientation crystallization: once some locked item has an exclusive
canonical zone, a `validatePuzzle` call never changes the stored orientation
(frozen or not), reports the stored orientation, and scores every placed item
against the previously established orientation: a placed item is classified
correct exactly when its placed zone equals its expected zone computed from
the pre-call `isMirrored`, and incorrect exactly otherwise. -/
theorem crystallized_validate_scores_against_stored (items : List Item)
    (s : EngineState) (hN : (items.map Item.id).Nodup)
    (hc : isOrientationCrystallized items s.lockedItems = true) :
    (∀ b, (validatePuzzle b items s).2.isMirrored = s.isMirrored) ∧
      (validatePuzzle false items s).1.isMirrored = s.isMirrored ∧
      ∀ it ∈ items, ∀ pz, mapGet s.itemPlacements it.id = some pz →
        ((it.id ∈ (validatePuzzle false items s).1.correct ↔
            pz = getExpectedZone it s.isMirrored) ∧
          (it.id ∈ (validatePuzzle false items s).1.incorrect ↔
            pz ≠ getExpectedZone it s.isMirrored)) := by
  refine ⟨?_, ?_, ?_⟩
  · intro b
    cases b with
    | true => rfl
    | false => simp [validatePuzzle, hc]
  · simp [validatePuzzle, hc]
  · intro it hit pz hpz
    have hcor : (validatePuzzle false items s).1.correct
        = (classifyItems items s.itemPlacements s.isMirrored).1 := by
      simp [validatePuzzle, hc]
    have hinc : (validatePuzzle false items s).1.incorrect
        = (classifyItems items s.itemPlacements s.isMirrored).2 := by
      simp [validatePuzzle, hc]
    rw [hcor, hinc, mem_classify_correct, mem_classify_incorrect]
    constructor
    · constructor
      · rintro ⟨it', hit', hid, hexp⟩
        have : it' = it := item_eq_of_id_eq hN hit' hit hid
        subst this
        rw [hpz] at hexp
        exact (Option.some.injEq _ _).mp hexp
      · intro hexp
        exact ⟨it, hit, rfl, by rw [hpz, hexp]⟩
    · constructor
      · rintro ⟨it', hit', hid, pz', hpz', hne⟩
        have : it' = it := item_eq_of_id_eq hN hit' hit hid
        subst this
        rw [hpz] at hpz'
        rw [← (Option.some.injEq _ _).mp hpz'] at hne
        exact hne
      · intro hne
        exact ⟨it, hit, rfl, pz, hpz, hne⟩

/-- The spec's crystallization scenario: `A` (canonical left) is locked at
right and `B` (canonical right) is locked at left, establishing the mirrored
frame; `C` (canonical left) is then placed at left. -/
def exCrystalItems : List Item :=
  [⟨"A", Zone.left⟩, ⟨"B", Zone.right⟩, ⟨"C", Zone.left⟩]

/-- The state after the scenario's first validate: `A`,`B` locked, orientation
mirrored, `C` placed standardly at left. -/
def exCrystalState : EngineState :=
  ⟨[("A", Zone.right), ("B", Zone.left), ("C", Zone.left)],
   ⟨["B", "C"], ["A"], [], []⟩, ["A", "B"], ⟨false, false⟩, true⟩

/-- C6, witness: in the scenario, the orientation is crystallized, validate
keeps and reports `mirrored = true`, and `C` — placed at its canonical left —
is scored against the mirrored expectation `right` and marked incorrect. -/
theorem crystallized_validate_witness :
    isOrientationCrystallized exCrystalItems exCrystalState.lockedItems
        = true ∧
      (validatePuzzle false exCrystalItems exCrystalState).2.isMirrored
        = exCrystalState.isMirrored ∧
      ("C" ∈ (validatePuzzle false exCrystalItems exCrystalState).1.incorrect ↔
        Zone.left ≠ getExpectedZone ⟨"C", Zone.left⟩ exCrystalState.isMirrored) :=
  ⟨by decide,
   (crystallized_validate_scores_against_stored exCrystalItems exCrystalState
     (by decide) (by decide)).1 false,
   ((crystallized_validate_scores_against_stored exCrystalItems exCrystalState
     (by decide) (by decide)).2.2 ⟨"C", Zone.left⟩ (by decide) Zone.left
     (by decide)).2⟩

theorem mem_setAdd_iff {l : List String} {x y : String} :
    y ∈ setAdd l x ↔ y = x ∨ y ∈ l := by
  unfold setAdd
  split
  · next h =>
    have hm : x ∈ l := by simpa using h
    constructor
    · exact fun hy => Or.inr hy
    · rintro (rfl | hy)
      · exact hm
      · exact hy
  · simp [or_comm]

theorem setAdd_nodup {l : List String} {x : String} (h : l.Nodup) :
    (setAdd l x).Nodup := by
  unfold setAdd
  split
  · exact h
  · next hc =>
    have hm : x ∉ l := by simpa using hc
    simpa [List.nodup_append] using ⟨h, hm⟩

theorem foldl_setAdd_nodup :
    ∀ (c l : List String), l.Nodup → (c.foldl setAdd l).Nodup := by
  intro c
  induction c with
  | nil => exact fun l h => h
  | cons y ys ih => exact fun l h => ih _ (setAdd_nodup h)

theorem mem_foldl_setAdd_iff {y : String} :
    ∀ (c l : List String), (y ∈ c.foldl setAdd l ↔ y ∈ l ∨ y ∈ c) := by
  intro c
  induction c with
  | nil => simp
  | cons a as ih =>
    intro l
    rw [List.foldl_cons, ih (setAdd l a), mem_setAdd_iff]
    simp only [List.mem_cons]
    tauto

/-- Two duplicate-free lists with the first contained in the second have equal
lengths exactly when the second is also contained in the first. -/
theorem length_eq_iff_superset {A B : List String} (hA : A.Nodup)
    (hB : B.Nodup) (hsub : ∀ x ∈ A, x ∈ B) :
    (A.length = B.length ↔ ∀ x ∈ B, x ∈ A) := by
  have hfs : A.toFinset ⊆ B.toFinset := by
    intro x hx
    rw [List.mem_toFinset] at hx ⊢
    exact hsub x hx
  have hcA : A.toFinset.card = A.length := List.toFinset_card_of_nodup hA
  have hcB : B.toFinset.card = B.length := List.toFinset_card_of_nodup hB
  constructor
  · intro hlen x hx
    have heq : A.toFinset = B.toFinset :=
      Finset.eq_of_subset_of_card_le hfs (by rw [hcA, hcB, hlen])
    rw [← List.mem_toFinset, ← heq, List.mem_toFinset] at hx
    exact hx
  · intro hsup
    have heq : A.toFinset = B.toFinset := by
      apply Finset.Subset.antisymm hfs
      intro x hx
      rw [List.mem_toFinset] at hx ⊢
      exact hsup x hx
    rw [← hcA, ← hcB, heq]

/-- The reveal-flag update of `validatePuzzle`, characterized: a flag comes
out true exactly when it was true, the ≥3 canonical-count threshold over the
extended locked set holds, or every item ends up locked (the all-locked
forcing). -/
theorem revealAfterValidate_iff (items : List Item) (prev : RevealedRules)
    (locked correct : List String) (hN : (items.map Item.id).Nodup)
    (hLn : locked.Nodup) (hLs : ∀ x ∈ locked, x ∈ items.map Item.id)
    (hCs : ∀ x ∈ correct, x ∈ items.map Item.id) :
    ((revealAfterValidate items prev locked correct).left = true ↔
      (prev.left = true ∨
        3 ≤ canonicalLockedCount items (correct.foldl setAdd locked) Zone.left ∨
        ∀ it ∈ items, it.id ∈ correct.foldl setAdd locked)) ∧
    ((revealAfterValidate items prev locked correct).right = true ↔
      (prev.right = true ∨
        3 ≤ canonicalLockedCount items (correct.foldl setAdd locked)
          Zone.right ∨
        ∀ it ∈ items, it.id ∈ correct.foldl setAdd locked)) := by
  have hUn : (correct.foldl setAdd locked).Nodup := foldl_setAdd_nodup _ _ hLn
  have hUs : ∀ x ∈ correct.foldl setAdd locked, x ∈ items.map Item.id := by
    intro x hx
    rcases (mem_foldl_setAdd_iff _ _).mp hx with h | h
    · exact hLs x h
    · exact hCs x h
  have hall : ((correct.foldl setAdd locked).length = items.length ↔
      ∀ it ∈ items, it.id ∈ correct.foldl setAdd locked) := by
    have hlen : (items.map Item.id).length = items.length := List.length_map _ _
    rw [← hlen, length_eq_iff_superset hUn (by exact hN) hUs]
    constructor
    · intro h it hit
      exact h it.id (List.mem_map_of_mem _ hit)
    · intro h x hx
      rcases List.mem_map.mp hx with ⟨it, hit, rfl⟩
      exact h it hit
  unfold revealAfterValidate
  by_cases hlen : (correct.foldl setAdd locked).length = items.length
  · rw [if_pos hlen]
    have hthird := hall.mp hlen
    exact ⟨⟨fun _ => Or.inr (Or.inr hthird), fun _ => rfl⟩,
      ⟨fun _ => Or.inr (Or.inr hthird), fun _ => rfl⟩⟩
  · rw [if_neg hlen]
    have hnall : ¬∀ it ∈ items, it.id ∈ correct.foldl setAdd locked :=
      fun h => hlen (hall.mpr h)
    constructor <;> simp [hnall, Bool.or_eq_true, decide_eq_true_eq]

theorem placeItem_lockedItems (b : Bool) (s : EngineState) (id : String)
    (z : Zone) (a : InsertAnchor) :
    (placeItem b s id z a).lockedItems = s.lockedItems := by
  cases b <;> rfl

/-- The hint choice, read off the source: the first eligible item whose
placement is wrong, else the first eligible item, else nothing. -/
def hintTarget (items : List Item) (s : EngineState) : Option Item :=
  match (hintEligible items s).filter (hintWrong s) with
  | t :: _ => some t
  | [] => (hintEligible items s).head?

/-- `revealOneHint` selects `hintTarget` and, when that exists, acts by
`placeItem` at the append anchor, adds the id to the locked set, and ORs the
reveal flags with the ≥3 thresholds over the extended locked set. -/
theorem revealOneHint_eq (items : List Item) (s : EngineState) :
    revealOneHint false items s
      = match hintTarget items s with
        | none => (none, s)
        | some t =>
          (some t.id,
           { placeItem false s t.id (getExpectedZone t s.isMirrored)
               InsertAnchor.atEnd with
              lockedItems := setAdd
                (placeItem false s t.id (getExpectedZone t s.isMirrored)
                  InsertAnchor.atEnd).lockedItems t.id,
              revealedRules :=
                ⟨s.revealedRules.left ||
                   decide (3 ≤ canonicalLockedCount items
                     (setAdd s.lockedItems t.id) Zone.left),
                 s.revealedRules.right ||
                   decide (3 ≤ canonicalLockedCount items
                     (setAdd s.lockedItems t.id) Zone.right)⟩ }) := by
  rw [revealOneHint, hintTarget]
  cases helig : hintEligible items s with
  | nil => simp
  | cons e es =>
    cases hw : (e :: es).filter (hintWrong s) with
    | nil => simp [hw]
    | cons w ws => simp [hw]

/-- When a hint target exists, `revealOneHint` returns its id, maps it to its
orientation-adjusted expected zone, appends it at the end of that zone's
order (stripping it from every order first), and adds it to the locked set. -/
theorem hint_post_props (items : List Item) (s : EngineState) (t : Item)
    (ht : hintTarget items s = some t) :
    (revealOneHint false items s).1 = some t.id ∧
      mapGet (revealOneHint false items s).2.itemPlacements t.id
        = some (getExpectedZone t s.isMirrored) ∧
      (revealOneHint false items s).2.zoneOrder.get
          (getExpectedZone t s.isMirrored)
        = ((s.zoneOrder.get (getExpectedZone t s.isMirrored)).filter
            (· != t.id)) ++ [t.id] ∧
      (revealOneHint false items s).2.lockedItems
        = setAdd s.lockedItems t.id := by
  rw [revealOneHint_eq, ht]
  refine ⟨rfl, ?_, ?_, ?_⟩
  · show mapGet (placeItem false s t.id (getExpectedZone t s.isMirrored)
        InsertAnchor.atEnd).itemPlacements t.id = _
    simp only [placeItem, Bool.false_eq_true, if_false]
    exact mapGet_mapSet_self _ _ _
  · show (placeItem false s t.id (getExpectedZone t s.isMirrored)
        InsertAnchor.atEnd).zoneOrder.get (getExpectedZone t s.isMirrored) = _
    simp only [placeItem, Bool.false_eq_true, if_false]
    rw [get_set_same, get_removeAll]
    rfl
  · show setAdd (placeItem false s t.id (getExpectedZone t s.isMirrored)
        InsertAnchor.atEnd).lockedItems t.id = _
    rw [placeItem_lockedItems]

/-- C7, counterexample.  A ten-item puzzle (2 canonical-left, 2
canonical-right, 6 both) with nine items locked; the hint locks the last item
`c10`, so every item of the puzzle is locked, yet both reveal flags stay
false: `revealOneHint` applies only the ≥3 per-category thresholds (here the
counts are 2 and 2) and has no all-locked forcing. -/
def exHintItems : List Item :=
  [⟨"c1", Zone.left⟩, ⟨"c2", Zone.left⟩, ⟨"c3", Zone.right⟩,
   ⟨"c4", Zone.right⟩, ⟨"c5", Zone.both⟩, ⟨"c6", Zone.both⟩,
   ⟨"c7", Zone.both⟩, ⟨"c8", Zone.both⟩, ⟨"c9", Zone.both⟩,
   ⟨"c10", Zone.both⟩]

/-- Nine of the ten items are locked; the unlocked `c10` sits wrongly placed
in the left zone of a non-frozen store with both flags false. -/
def exHintState : EngineState :=
  ⟨[("c10", Zone.left)], ⟨["c10"], [], [], []⟩,
   ["c1", "c2", "c3", "c4", "c5", "c6", "c7", "c8", "c9"],
   ⟨false, false⟩, false⟩

/-- C7, counterexample theorem: after the hint call every item of the puzzle
is locked, yet both reveal flags are still false — the claimed all-locked
forcing does not hold for `revealHint`. -/
theorem hint_no_all_locked_forcing :
    (revealOneHint false exHintItems exHintState).2.revealedRules.left
        = false ∧
      (revealOneHint false exHintItems exHintState).2.revealedRules.right
        = false ∧
      ∀ it ∈ exHintItems,
        it.id ∈ (revealOneHint false exHintItems exHintState).2.lockedItems := by
  refine ⟨by decide, by decide, by decide⟩

/-- C7, amended.  On a non-frozen well-formed store (distinct item ids,
duplicate-free locked set drawn from the puzzle's ids): after `validate`, each
exclusive category's reveal flag is true iff it was true before, or at least
three items of that canonical category are now locked, or every item is now
locked (forced).  After a `revealHint` call that locks an item, the flag is
true iff it was true before or the ≥3 canonical threshold now holds — the
all-locked forcing does not apply to hints; a hint that returns null leaves
the flags unchanged.  In particular a true flag is never unset. -/
theorem reveal_flags_characterization (items : List Item) (s : EngineState)
    (hN : (items.map Item.id).Nodup) (hLn : s.lockedItems.Nodup)
    (hLs : ∀ x ∈ s.lockedItems, x ∈ items.map Item.id) :
    (((validatePuzzle false items s).2.revealedRules.left = true ↔
        (s.revealedRules.left = true ∨
          3 ≤ canonicalLockedCount items
            (validatePuzzle false items s).2.lockedItems Zone.left ∨
          ∀ it ∈ items,
            it.id ∈ (validatePuzzle false items s).2.lockedItems)) ∧
      ((validatePuzzle false items s).2.revealedRules.right = true ↔
        (s.revealedRules.right = true ∨
          3 ≤ canonicalLockedCount items
            (validatePuzzle false items s).2.lockedItems Zone.right ∨
          ∀ it ∈ items,
            it.id ∈ (validatePuzzle false items s).2.lockedItems))) ∧
      (∀ hid s', revealOneHint false items s = (some hid, s') →
        ((s'.revealedRules.left = true ↔
            (s.revealedRules.left = true ∨
              3 ≤ canonicalLockedCount items s'.lockedItems Zone.left)) ∧
          (s'.revealedRules.right = true ↔
            (s.revealedRules.right = true ∨
              3 ≤ canonicalLockedCount items s'.lockedItems Zone.right)))) ∧
      ∀ s', revealOneHint false items s = (none, s') →
        s'.revealedRules = s.revealedRules := by
  have hCs : ∀ (m : Bool) (x : String),
      x ∈ (classifyItems items s.itemPlacements m).1 →
        x ∈ items.map Item.id := by
    intro m x hx
    rcases (mem_classify_correct s.itemPlacements m x items).mp hx with
      ⟨it, hit, hid, _⟩
    exact hid ▸ List.mem_map_of_mem _ hit
  refine ⟨?_, ?_, ?_⟩
  · exact revealAfterValidate_iff items s.revealedRules s.lockedItems
      (classifyItems items s.itemPlacements
        (if isOrientationCrystallized items s.lockedItems = true
         then s.isMirrored
         else calculateIsMirrored items s.itemPlacements)).1
      hN hLn hLs (hCs _)
  · intro hid s' heq
    rw [revealOneHint_eq] at heq
    cases ht : hintTarget items s with
    | none =>
      rw [ht] at heq
      cases heq
    | some t =>
      rw [ht] at heq
      have h2 : s' = { placeItem false s t.id (getExpectedZone t s.isMirrored)
          InsertAnchor.atEnd with
            lockedItems := setAdd
              (placeItem false s t.id (getExpectedZone t s.isMirrored)
                InsertAnchor.atEnd).lockedItems t.id,
            revealedRules :=
              ⟨s.revealedRules.left ||
                 decide (3 ≤ canonicalLockedCount items
                   (setAdd s.lockedItems t.id) Zone.left),
               s.revealedRules.right ||
                 decide (3 ≤ canonicalLockedCount items
                   (setAdd s.lockedItems t.id) Zone.right)⟩ } :=
        ((Prod.mk.injEq _ _ _ _).mp heq).2.symm
      subst h2
      rw [placeItem_lockedItems]
      constructor <;> simp [Bool.or_eq_true, decide_eq_true_eq]
  · intro s' heq
    rw [revealOneHint_eq] at heq
    cases ht : hintTarget items s with
    | none =>
      rw [ht] at heq
      have h2 : s' = s := ((Prod.mk.injEq _ _ _ _).mp heq).2.symm
      rw [h2]
    | some t =>
      rw [ht] at heq
      cases heq

/-- A four-item puzzle with three canonical-left items placed correctly: one
validate call locks all three and trips the left reveal threshold. -/
def exRevealItems : List Item :=
  [⟨"l1", Zone.left⟩, ⟨"l2", Zone.left⟩, ⟨"l3", Zone.left⟩,
   ⟨"b1", Zone.both⟩]

/-- The pre-validate store of the reveal-threshold scenario. -/
def exRevealState : EngineState :=
  ⟨[("l1", Zone.left), ("l2", Zone.left), ("l3", Zone.left)],
   ⟨["l1", "l2", "l3"], [], [], []⟩, [], ⟨false, false⟩, false⟩

/-- C7, witness: instantiating the characterization on the threshold
scenario; the flag indeed comes out true there. -/
theorem reveal_flags_witness :
    (validatePuzzle false exRevealItems exRevealState).2.revealedRules.left
        = true ∧
      ((validatePuzzle false exRevealItems exRevealState).2.revealedRules.left
          = true ↔
        (exRevealState.revealedRules.left = true ∨
          3 ≤ canonicalLockedCount exRevealItems
            (validatePuzzle false exRevealItems exRevealState).2.lockedItems
            Zone.left ∨
          ∀ it ∈ exRevealItems,
            it.id ∈ (validatePuzzle false exRevealItems
              exRevealState).2.lockedItems)) :=
  ⟨by decide,
   (reveal_flags_characterization exRevealItems exRevealState (by decide)
     (by decide) (by decide)).1.1⟩

/-- C9.  Hint selection determinism: only placed, non-outside, unlocked items
are eligible; the hint is the first eligible item (in the puzzle's original
item order) whose placement differs from its orientation-adjusted expected
zone, falling back to the first eligible item when none is wrong; the chosen
item is moved to its expected zone at the end of that zone's order, locked,
and its id returned; with no eligible item the call returns null and changes
nothing. -/
theorem hint_selection (items : List Item) (s : EngineState) :
    (hintEligible items s = [] → revealOneHint false items s = (none, s)) ∧
      (∀ t, ((hintEligible items s).filter (hintWrong s)).head? = some t →
        (revealOneHint false items s).1 = some t.id ∧
          mapGet (revealOneHint false items s).2.itemPlacements t.id
            = some (getExpectedZone t s.isMirrored) ∧
          (revealOneHint false items s).2.zoneOrder.get
              (getExpectedZone t s.isMirrored)
            = ((s.zoneOrder.get (getExpectedZone t s.isMirrored)).filter
                (· != t.id)) ++ [t.id] ∧
          (revealOneHint false items s).2.lockedItems
            = setAdd s.lockedItems t.id) ∧
      ∀ t, (hintEligible items s).filter (hintWrong s) = [] →
        (hintEligible items s).head? = some t →
        (revealOneHint false items s).1 = some t.id ∧
          mapGet (revealOneHint false items s).2.itemPlacements t.id
            = some (getExpectedZone t s.isMirrored) ∧
          (revealOneHint false items s).2.zoneOrder.get
              (getExpectedZone t s.isMirrored)
            = ((s.zoneOrder.get (getExpectedZone t s.isMirrored)).filter
                (· != t.id)) ++ [t.id] ∧
          (revealOneHint false items s).2.lockedItems
            = setAdd s.lockedItems t.id := by
  refine ⟨?_, ?_, ?_⟩
  · intro helig
    rw [revealOneHint_eq, hintTarget, helig]
    rfl
  · intro t hw
    apply hint_post_props
    rw [hintTarget]
    cases hfw : (hintEligible items s).filter (hintWrong s) with
    | nil => rw [hfw] at hw; cases hw
    | cons w ws =>
      rw [hfw] at hw
      cases hw
      rfl
  · intro t hfw hhead
    apply hint_post_props
    rw [hintTarget, hfw, hhead]

/-- Two eligible items: `g` is placed correctly in `both`, `w` is wrongly
placed in `left` (expected `both`). -/
def exChoiceItems : List Item := [⟨"g", Zone.both⟩, ⟨"w", Zone.both⟩]

/-- The store of the choice scenario: both items placed, none locked. -/
def exChoiceState : EngineState :=
  ⟨[("g", Zone.both), ("w", Zone.left)], ⟨["w"], [], ["g"], []⟩, [],
   ⟨false, false⟩, false⟩

/-- C9, witness: with one correctly and one wrongly placed eligible item, the
hint picks the wrongly placed `w`. -/
theorem hint_selection_witness :
    ((hintEligible exChoiceItems exChoiceState).filter
        (hintWrong exChoiceState)).head? = some ⟨"w", Zone.both⟩ ∧
      (revealOneHint false exChoiceItems exChoiceState).1 = some "w" :=
  ⟨by decide,
   ((hint_selection exChoiceItems exChoiceState).2.1 ⟨"w", Zone.both⟩
     (by decide)).1⟩

end VennStack
